import Mathlib

/-!
Verification of the armory-rust wallet core against its specification.

The definitions below are a shallow embedding of the Rust sources:

* `wallet/descriptor_wallet.rs` — address-type tags, derivation paths and the
  descriptor wallet's address ledger (`Wallet`);
* `transaction/builder.rs` — fee estimation, coin selection and PSBT assembly;
* `transaction/psbt.rs` — the PSBT v2 record, `add_output`, `finalize`;
* `storage/legacy_import.rs` — the legacy wallet binary parser and validator.

Machine integers are modelled as `Nat` with explicit bounds where overflow
matters; fallible Rust functions returning `Result` are modelled with
`Except`; `HashMap`s that the code reads through `get`/`insert` are modelled
as association lists.  Elliptic-curve operations (BIP-32 child-key
derivation, HASH160) are kept abstract as parameters of a `CryptoCtx`,
since no claim depends on their arithmetic content, only on how the wallet
routes their results.
-/

namespace Armory

/-- Bitcoin network tag (`Network` in `lib.rs`). -/
inductive Network where
  | bitcoin
  | testnet
  | regtest
  | signet
deriving DecidableEq, Repr

/-- Address families supported by the descriptor wallet
(`AddressType` in `wallet/descriptor_wallet.rs`). -/
inductive AddressType where
  | legacy
  | nestedSegwit
  | nativeSegwit
  | taproot
deriving DecidableEq, Repr

/-- One level of a BIP-32 derivation path (`bitcoin::bip32::ChildNumber`). -/
structure ChildNumber where
  hardened : Bool
  index : Nat
deriving DecidableEq, Repr

/-- BIP purpose number per family (`AddressType::derivation_path`,
descriptor_wallet.rs:44-49). -/
def AddressType.purpose : AddressType → Nat
  | .legacy => 44
  | .nestedSegwit => 49
  | .nativeSegwit => 84
  | .taproot => 86

/-- `AddressType::derivation_path` (descriptor_wallet.rs:43-58).  The coin
level is the literal `from_hardened_idx(0)` in the source, independent of
any network. -/
def AddressType.derivationPath (t : AddressType) (account change index : Nat) :
    List ChildNumber :=
  [⟨true, t.purpose⟩, ⟨true, 0⟩, ⟨true, account⟩, ⟨false, change⟩, ⟨false, index⟩]

/-- Abstraction of the elliptic-curve layer used by `generate_address`:
`pubkey p` is the 33-byte compressed public key of the child key derived at
path `p` from the wallet's master key, and `hash160` is RIPEMD160 ∘ SHA256.
The wallet code only pipes these values into script templates, so their
arithmetic is irrelevant to the claims and is kept abstract. -/
structure CryptoCtx where
  pubkey : List ChildNumber → List Nat
  hash160 : List Nat → List Nat

/-- The x-only coordinate of a compressed public key: the 32 x bytes after
the parity byte (`public_key.inner.x_only_public_key().0`). -/
def xonlyBytes (k : List Nat) : List Nat := k.drop 1

/-- The script_pubkey produced for a compressed public key `k` by the
address constructors invoked in `Wallet::generate_address`
(descriptor_wallet.rs:285-300).  Note the Taproot arm: the source calls
`TweakedPublicKey::dangerous_assume_tweaked(... .x_only_public_key().0)`,
committing to the RAW x-only key with no TapTweak applied. -/
def scriptPubkey (ctx : CryptoCtx) (t : AddressType) (k : List Nat) : List Nat :=
  match t with
  | .legacy => 0x76 :: 0xa9 :: 0x14 :: (ctx.hash160 k ++ [0x88, 0xac])
  | .nestedSegwit =>
      0xa9 :: 0x14 :: (ctx.hash160 (0x00 :: 0x14 :: ctx.hash160 k) ++ [0x87])
  | .nativeSegwit => 0x00 :: 0x14 :: ctx.hash160 k
  | .taproot => 0x51 :: 0x20 :: xonlyBytes k

/-- Association-list lookup keyed by derivation path (models
`HashMap<DerivationPath, _>::get`). -/
def lookupPath {α : Type} : List (List ChildNumber × α) → List ChildNumber → Option α
  | [], _ => none
  | (p, a) :: rest, q => if p = q then some a else lookupPath rest q

/-- Association-list lookup keyed by address type (models
`HashMap<AddressType, u32>::get`). -/
def lookupIdx : List (AddressType × Nat) → AddressType → Option Nat
  | [], _ => none
  | (t, n) :: rest, u => if t = u then some n else lookupIdx rest u

/-- Association-list insert keyed by address type (models
`HashMap<AddressType, u32>::insert`). -/
def insertIdx : List (AddressType × Nat) → AddressType → Nat → List (AddressType × Nat)
  | [], t, n => [(t, n)]
  | (u, m) :: rest, t, n =>
      if u = t then (t, n) :: rest else (u, m) :: insertIdx rest t n

/-- The descriptor wallet's ledgers (`Wallet`, descriptor_wallet.rs:158-177).
An address is represented by its script_pubkey bytes.  The UTXO set,
transaction history and storage backend are carried by the Rust struct but
not touched by the operations modelled here. -/
structure Wallet where
  network : Network
  nextIndices : List (AddressType × Nat)
  addresses : List (List ChildNumber × List Nat)
  derivedKeys : List (List ChildNumber × List Nat)

/-- `self.next_indices.get(&address_type).copied().unwrap_or(0)`
(descriptor_wallet.rs:226 and :239). -/
def Wallet.nextIndex (w : Wallet) (t : AddressType) : Nat :=
  (lookupIdx w.nextIndices t).getD 0

/-- `Wallet::generate_address` (descriptor_wallet.rs:261-304): return the
cached address if present, otherwise derive (with key cache), build the
script for the family and cache the new address. -/
def Wallet.generateAddress (ctx : CryptoCtx) (w : Wallet) (path : List ChildNumber)
    (t : AddressType) : List Nat × Wallet :=
  match lookupPath w.addresses path with
  | some a => (a, w)
  | none =>
      let k := (lookupPath w.derivedKeys path).getD (ctx.pubkey path)
      let dk := match lookupPath w.derivedKeys path with
        | some _ => w.derivedKeys
        | none => (path, k) :: w.derivedKeys
      let a := scriptPubkey ctx t k
      (a, { w with derivedKeys := dk, addresses := (path, a) :: w.addresses })

/-- `Wallet::get_new_address` (descriptor_wallet.rs:225-235): derive the
receive path at `next_indices[type]`, generate, then increment the
counter. -/
def Wallet.getNewAddress (ctx : CryptoCtx) (w : Wallet) (t : AddressType) :
    List Nat × Wallet :=
  let index := w.nextIndex t
  let path := t.derivationPath 0 0 index
  let (a, w') := w.generateAddress ctx path t
  (a, { w' with nextIndices := insertIdx w'.nextIndices t (index + 1) })

/-- `Wallet::get_change_address` (descriptor_wallet.rs:238-245): derive the
change path at `next_indices[type]` — the same counter `get_new_address`
uses — and generate.  The counter is NOT incremented. -/
def Wallet.getChangeAddress (ctx : CryptoCtx) (w : Wallet) (t : AddressType) :
    List Nat × Wallet :=
  let index := w.nextIndex t
  let path := t.derivationPath 0 1 index
  w.generateAddress ctx path t

/-- The derivation path `get_change_address` derives at, given wallet state
`w` (the `path` local of descriptor_wallet.rs:240). -/
def Wallet.changeAddressPath (w : Wallet) (t : AddressType) : List ChildNumber :=
  t.derivationPath 0 1 (w.nextIndex t)

/-- `Wallet::create_new` (descriptor_wallet.rs:181-206): fresh ledgers,
counters initialised to 0 for all four families, then
`generate_initial_addresses` issues one receive address per family
(descriptor_wallet.rs:307-314). -/
def Wallet.createNew (ctx : CryptoCtx) (network : Network) : Wallet :=
  let w : Wallet :=
    { network := network, nextIndices := [], addresses := [], derivedKeys := [] }
  let w := { w with nextIndices := insertIdx w.nextIndices .legacy 0 }
  let w := { w with nextIndices := insertIdx w.nextIndices .nestedSegwit 0 }
  let w := { w with nextIndices := insertIdx w.nextIndices .nativeSegwit 0 }
  let w := { w with nextIndices := insertIdx w.nextIndices .taproot 0 }
  let w := (w.getNewAddress ctx .legacy).2
  let w := (w.getNewAddress ctx .nestedSegwit).2
  let w := (w.getNewAddress ctx .nativeSegwit).2
  (w.getNewAddress ctx .taproot).2

/-- A concrete crypto context for evaluating the model on closed inputs:
every derived compressed key is 33 bytes of `0x02`, every hash is 20 bytes
of `0x07`.  The wallet claims under test do not depend on these values. -/
def ctx0 : CryptoCtx :=
  { pubkey := fun _ => List.replicate 33 2, hash160 := fun _ => List.replicate 20 7 }

/-- A freshly created regtest wallet over the concrete context. -/
def wReg : Wallet := Wallet.createNew ctx0 .regtest

/-- A freshly created testnet wallet over the concrete context. -/
def wTest : Wallet := Wallet.createNew ctx0 .testnet

/-- Transaction-layer errors (`TransactionError` in `error.rs`, together
with the variants the builder constructs). -/
inductive TxError where
  | insufficientFunds (available required : Nat)
  | invalidPsbt (msg : String)
  | feeEstimation (msg : String)
  | invalidAmount (msg : String)
  | invalidInput (msg : String)
  | invalidLocktime (msg : String)
deriving DecidableEq, Repr

/-- Coin-selection strategy (`CoinSelectionStrategy`, builder.rs:33-42). -/
inductive CoinSelectionStrategy where
  | largestFirst
  | smallestFirst
  | branchAndBound
  | random
deriving DecidableEq, Repr

/-- A spendable UTXO as the builder consumes it (`Utxo`,
descriptor_wallet.rs:125-140; the owning address, derivation path and
confirmation height play no role in the operations modelled here). -/
structure MUtxo where
  txid : List Nat
  vout : Nat
  value : Nat
  script : List Nat
deriving DecidableEq, Repr

/-- Sum of UTXO values in satoshis. -/
def sumValues (l : List MUtxo) : Nat := (l.map MUtxo.value).sum

/-- Stable insertion step for a descending sort by value: `u` goes after
every earlier element whose value is at least `u.value`. -/
def insertDescByValue (u : MUtxo) : List MUtxo → List MUtxo
  | [] => [u]
  | v :: rest =>
      if u.value ≤ v.value then v :: insertDescByValue u rest else u :: v :: rest

/-- Stable insertion step for an ascending sort by value. -/
def insertAscByValue (u : MUtxo) : List MUtxo → List MUtxo
  | [] => [u]
  | v :: rest =>
      if v.value ≤ u.value then v :: insertAscByValue u rest else u :: v :: rest

/-- Stable sort by descending value (`sort_by(|a, b| b.value.cmp(&a.value))`). -/
def sortByValueDesc (l : List MUtxo) : List MUtxo := l.foldr insertDescByValue []

/-- Stable sort by ascending value (`sort_by(|a, b| a.value.cmp(&b.value))`). -/
def sortByValueAsc (l : List MUtxo) : List MUtxo := l.foldr insertAscByValue []

/-- The sort applied per strategy (builder.rs:377-394): LargestFirst,
BranchAndBound and Random all currently sort descending; SmallestFirst
sorts ascending. -/
def sortForStrategy : CoinSelectionStrategy → List MUtxo → List MUtxo
  | .largestFirst, l => sortByValueDesc l
  | .smallestFirst, l => sortByValueAsc l
  | .branchAndBound, l => sortByValueDesc l
  | .random, l => sortByValueDesc l

/-- The accumulation loop of `perform_coin_selection` (builder.rs:396-411):
push each UTXO, add its value with `checked_add` (error on u64 overflow),
and break once the accumulated total reaches `needed`. -/
def selectLoop (needed : Nat) : List MUtxo → List MUtxo → Nat →
    Except TxError (List MUtxo × Nat)
  | [], sel, tot => .ok (sel, tot)
  | u :: rest, sel, tot =>
      if tot + u.value < 2 ^ 64 then
        if needed ≤ tot + u.value then .ok (sel ++ [u], tot + u.value)
        else selectLoop needed rest (sel ++ [u]) (tot + u.value)
      else .error (.invalidAmount "Selected value overflow")

/-- `TransactionBuilder::perform_coin_selection` (builder.rs:366-425): sort
per strategy, accumulate until `target + fee` is covered, fail with
`InsufficientFunds { available, required }` when the UTXOs are exhausted
short of the target, otherwise return the selection and the change. -/
def performCoinSelection (strategy : CoinSelectionStrategy) (availableUtxos : List MUtxo)
    (targetAmount estimatedFee : Nat) : Except TxError (List MUtxo × Nat) :=
  let totalNeeded := targetAmount + estimatedFee
  match selectLoop totalNeeded (sortForStrategy strategy availableUtxos) [] 0 with
  | .error e => .error e
  | .ok (sel, tot) =>
      if tot < totalNeeded then .error (.insufficientFunds tot totalNeeded)
      else .ok (sel, tot - totalNeeded)

/-- `TransactionBuilder::estimate_transaction_size` (builder.rs:344-363):
10 base vbytes, 148 per input (at least one), 34 per output (at least
one). -/
def estimateTransactionSize (numSelected numOutputs : Nat) : Nat :=
  10 + 148 * max numSelected 1 + 34 * max numOutputs 1

/-- The coin-selection/change step of `TransactionBuilder::select_utxos`
(builder.rs:184-232) after the estimated fee is computed: run
`perform_coin_selection` and record a change output exactly when the
change amount is positive (`if change_amount > Amount::ZERO`).  There is
no dust-threshold test anywhere in the builder. -/
def selectUtxosChange (strategy : CoinSelectionStrategy) (utxos : List MUtxo)
    (recipientTotal numRecipients feeRate : Nat) :
    Except TxError (List MUtxo × Option Nat) :=
  let fee := feeRate * estimateTransactionSize 0 numRecipients
  match performCoinSelection strategy utxos recipientTotal fee with
  | .error e => .error e
  | .ok (sel, change) => .ok (sel, if 0 < change then some change else none)

/-- `TransactionBuilder::get_sequence_number` (builder.rs:427-434). -/
def getSequenceNumber (enableRbf : Bool) : Option Nat :=
  if enableRbf then some 0xfffffffd else some 0xffffffff

/-- A transaction output (`bitcoin::TxOut`): value in satoshis and
script_pubkey bytes. -/
structure TxOutM where
  value : Nat
  scriptPubkey : List Nat
deriving DecidableEq, Repr

/-- A PSBT v2 input (`PsbtV2Input`, psbt.rs:41-80).  The signature maps are
modelled as association lists of byte strings; the redeem/witness-script
and BIP-32/taproot metadata maps carried by the Rust struct are never read
by the operations modelled here and are omitted. -/
structure PsbtInput where
  previousTxid : List Nat
  previousOutputIndex : Nat
  sequence : Option Nat
  witnessUtxo : Option TxOutM
  nonWitnessUtxo : Option (List TxOutM)
  partSigs : List (List Nat × List Nat)
  tapKeySig : Option (List Nat)
  finalScriptSig : Option (List Nat)
  finalScriptWitness : Option (List (List Nat))
deriving DecidableEq, Repr

/-- A PSBT v2 output (`PsbtV2Output`, psbt.rs:84-101); the optional
redeem/witness-script and key-origin metadata are never read by the
operations modelled here and are omitted. -/
structure PsbtOutput where
  amount : Nat
  script : List Nat
deriving DecidableEq, Repr

/-- The PSBT v2 record (`PsbtV2`, psbt.rs:22-37); the opaque
`global_fields` byte map is omitted. -/
structure PsbtV2 where
  version : Nat
  inputs : List PsbtInput
  outputs : List PsbtOutput
  fallbackLocktime : Option Nat
  inputCount : Nat
  outputCount : Nat
deriving DecidableEq, Repr

/-- `PsbtV2::new` (psbt.rs:105-115); the Rust function returns
`Ok(...)` unconditionally. -/
def PsbtV2.new : PsbtV2 :=
  { version := 2, inputs := [], outputs := [], fallbackLocktime := none,
    inputCount := 0, outputCount := 0 }

/-- `PsbtV2::add_input` (psbt.rs:140-171): push an input with all optional
fields empty and set `input_count` to the new length. -/
def PsbtV2.addInput (p : PsbtV2) (previousTxid : List Nat)
    (previousOutputIndex : Nat) (sequence : Option Nat) : Except TxError PsbtV2 :=
  .ok { p with
    inputs := p.inputs ++
      [{ previousTxid := previousTxid, previousOutputIndex := previousOutputIndex,
         sequence := sequence, witnessUtxo := none, nonWitnessUtxo := none,
         partSigs := [], tapKeySig := none, finalScriptSig := none,
         finalScriptWitness := none }],
    inputCount := p.inputs.length + 1 }

/-- `PsbtV2::add_output` (psbt.rs:174-189): push the output and set
`output_count` to the new length.  The source performs no validation of
the amount or the script and returns `Ok(())` unconditionally. -/
def PsbtV2.addOutput (p : PsbtV2) (amount : Nat) (script : List Nat) :
    Except TxError PsbtV2 :=
  .ok { p with
    outputs := p.outputs ++ [{ amount := amount, script := script }],
    outputCount := p.outputs.length + 1 }

/-- `PsbtV2::set_witness_utxo` (psbt.rs:192-199). -/
def PsbtV2.setWitnessUtxo (p : PsbtV2) (inputIndex : Nat) (utxo : TxOutM) :
    Except TxError PsbtV2 :=
  if h : inputIndex < p.inputs.length then
    .ok { p with
      inputs := p.inputs.set inputIndex
        { p.inputs.get ⟨inputIndex, h⟩ with witnessUtxo := some utxo } }
  else .error (.invalidInput "Input index out of range")

/-- `PsbtV2::is_ready_for_finalization` (psbt.rs:254-266): every input has
final scripts or at least one signature. -/
def PsbtV2.isReadyForFinalization (p : PsbtV2) : Bool :=
  p.inputs.all fun i =>
    (i.finalScriptSig.isSome || i.finalScriptWitness.isSome) ||
      (!i.partSigs.isEmpty || i.tapKeySig.isSome)

/-- A finalized transaction input (`bitcoin::TxIn`). -/
structure TxInM where
  previousTxid : List Nat
  previousOutputIndex : Nat
  scriptSig : List Nat
  sequence : Nat
  witness : List (List Nat)
deriving DecidableEq, Repr

/-- A finalized transaction (`bitcoin::Transaction`). -/
structure TransactionM where
  version : Nat
  lockTime : Nat
  inputs : List TxInM
  outputs : List TxOutM
deriving DecidableEq, Repr

/-- `PsbtV2::finalize` (psbt.rs:269-307): require readiness, then build a
version-2 transaction whose inputs carry `final_script_sig`/
`final_script_witness` (empty when absent) and
`sequence.unwrap_or(0xffffffff)`, with the fallback locktime (0 when
absent; `LockTime::from_height` rejects values above 499_999_999). -/
def PsbtV2.finalize (p : PsbtV2) : Except TxError TransactionM :=
  if ¬ p.isReadyForFinalization then
    .error (.invalidPsbt "PSBT not ready for finalization")
  else if 500000000 ≤ p.fallbackLocktime.getD 0 then
    .error (.invalidLocktime "Invalid locktime value")
  else
    .ok { version := 2, lockTime := p.fallbackLocktime.getD 0,
          inputs := p.inputs.map fun i =>
            { previousTxid := i.previousTxid,
              previousOutputIndex := i.previousOutputIndex,
              scriptSig := i.finalScriptSig.getD [],
              sequence := i.sequence.getD 0xffffffff,
              witness := i.finalScriptWitness.getD [] },
          outputs := p.outputs.map fun o =>
            { value := o.amount, scriptPubkey := o.script } }

/-- The input-adding loop of `TransactionBuilder::build_psbt`
(builder.rs:244-256): for each selected UTXO add an input with the
RBF-dependent sequence, then attach the witness UTXO at the freshly added
index `inputs.len() - 1`. -/
def addSelectedInputs (enableRbf : Bool) : List MUtxo → PsbtV2 → Except TxError PsbtV2
  | [], p => .ok p
  | u :: rest, p =>
      match p.addInput u.txid u.vout (getSequenceNumber enableRbf) with
      | .error e => .error e
      | .ok p1 =>
          match p1.setWitnessUtxo (p1.inputs.length - 1) ⟨u.value, u.script⟩ with
          | .error e => .error e
          | .ok p2 => addSelectedInputs enableRbf rest p2

/-- The output-adding loop of `TransactionBuilder::build_psbt`
(builder.rs:258-261). -/
def addRecipientOutputs : List (Nat × List Nat) → PsbtV2 → Except TxError PsbtV2
  | [], p => .ok p
  | (amount, script) :: rest, p =>
      match p.addOutput amount script with
      | .error e => .error e
      | .ok p1 => addRecipientOutputs rest p1

/-- `TransactionBuilder::build_psbt` (builder.rs:235-282) on an
already-selected UTXO set: fresh PSBT, inputs with sequence per the RBF
flag and their witness UTXOs, recipient outputs, the change output when
present, and the fallback locktime when an explicit locktime is set. -/
def buildPsbt (selectedUtxos : List MUtxo) (outputs : List (Nat × List Nat))
    (changeOutput : Option (Nat × List Nat)) (enableRbf : Bool)
    (locktime : Option Nat) : Except TxError PsbtV2 :=
  match addSelectedInputs enableRbf selectedUtxos PsbtV2.new with
  | .error e => .error e
  | .ok p1 =>
      match addRecipientOutputs outputs p1 with
      | .error e => .error e
      | .ok p2 =>
          match (match changeOutput with
                 | some (amount, script) => p2.addOutput amount script
                 | none => .ok p2) with
          | .error e => .error e
          | .ok p3 =>
              match locktime with
              | some v => .ok { p3 with fallbackLocktime := some v }
              | none => .ok p3

/-- A concrete spendable UTXO for evaluating the builder on closed inputs
(scenario 2 of the spec: one 100 000-sat P2WPKH coin). -/
def utxoEx : MUtxo :=
  { txid := List.replicate 32 1, vout := 0, value := 100000, script := [0x00, 0x14] }

/-- The PSBT produced by `build_psbt` for `utxoEx`, one 90 000-sat
recipient, no change, RBF enabled and no explicit locktime. -/
def psbtEx : PsbtV2 :=
  (buildPsbt [utxoEx] [(90000, [0x51, 0x20])] none true none).toOption.getD PsbtV2.new

/-- A PSBT whose single input carries an explicit sequence number 7 and a
final witness, ready for finalization. -/
def qEx : PsbtV2 :=
  { PsbtV2.new with
    inputs := [{ previousTxid := List.replicate 32 1, previousOutputIndex := 0,
                 sequence := some 7, witnessUtxo := none, nonWitnessUtxo := none,
                 partSigs := [], tapKeySig := none, finalScriptSig := none,
                 finalScriptWitness := some [[1]] }],
    inputCount := 1 }

/-- The transaction finalized from `qEx`. -/
def txEx : TransactionM :=
  qEx.finalize.toOption.getD { version := 0, lockTime := 0, inputs := [], outputs := [] }

/-- Storage-layer errors (`StorageError`, error.rs:101-118).  `Io` wraps a
`std::io::Error` in Rust; its payload plays no role here. -/
inductive StorageErr where
  | database (msg : String)
  | io
  | walletCorrupted
deriving DecidableEq, Repr

/-- `read_exact` on an in-memory byte stream: consume exactly `n` bytes or
fail with an UnexpectedEof I/O error (which `?` maps to
`StorageError::Io`). -/
def readExact (n : Nat) (bs : List Nat) : Except StorageErr (List Nat × List Nat) :=
  if n ≤ bs.length then .ok (bs.take n, bs.drop n) else .error .io

/-- Little-endian integer value of a byte list (`u32::from_le_bytes`,
`u64::from_le_bytes`). -/
def leVal : List Nat → Nat
  | [] => 0
  | b :: rest => b + 256 * leVal rest

/-- The legacy wallet header (`LegacyHeader`, legacy_import.rs:27-37); the
two name fields are kept as raw bytes (the source decodes them with lossy
UTF-8, which never fails). -/
structure LegacyHeader where
  fileId : List Nat
  version : Nat
  magicBytes : Nat
  walletFlags : Nat
  uniqueId : List Nat
  createDate : Nat
  shortName : List Nat
  longName : List Nat
  highestUsed : Nat
deriving DecidableEq, Repr

/-- `parse_null_terminated_string` (legacy_import.rs:417-420) at byte
level: the bytes before the first NUL. -/
def parseNullTerminated (buffer : List Nat) : List Nat :=
  buffer.takeWhile (fun b => b ≠ 0)

/-- `parse_wallet_header` (legacy_import.rs:112-168): nine sequential
`read_exact` calls totalling 334 bytes, performed BEFORE any validation. -/
def parseWalletHeader (bs : List Nat) : Except StorageErr (LegacyHeader × List Nat) :=
  match readExact 8 bs with
  | .error e => .error e
  | .ok (fileId, r1) =>
  match readExact 4 r1 with
  | .error e => .error e
  | .ok (versionB, r2) =>
  match readExact 4 r2 with
  | .error e => .error e
  | .ok (magicB, r3) =>
  match readExact 8 r3 with
  | .error e => .error e
  | .ok (flagsB, r4) =>
  match readExact 6 r4 with
  | .error e => .error e
  | .ok (uniqueId, r5) =>
  match readExact 8 r5 with
  | .error e => .error e
  | .ok (dateB, r6) =>
  match readExact 32 r6 with
  | .error e => .error e
  | .ok (shortB, r7) =>
  match readExact 256 r7 with
  | .error e => .error e
  | .ok (longB, r8) =>
  match readExact 8 r8 with
  | .error e => .error e
  | .ok (highestB, r9) =>
      .ok ({ fileId := fileId, version := leVal versionB, magicBytes := leVal magicB,
             walletFlags := leVal flagsB, uniqueId := uniqueId,
             createDate := leVal dateB, shortName := parseNullTerminated shortB,
             longName := parseNullTerminated longB,
             highestUsed := leVal highestB }, r9)

/-- The expected file signature `b"\xbaWALLET\x00"`. -/
def walletMagic : List Nat := [0xba, 0x57, 0x41, 0x4c, 0x4c, 0x45, 0x54, 0x00]

/-- `validate_wallet_file` (legacy_import.rs:171-196): signature, version
range, then network magic. -/
def validateWalletFile (h : LegacyHeader) : Except StorageErr Unit :=
  if h.fileId ≠ walletMagic then .error .walletCorrupted
  else if h.version < 0x01000000 ∨ 0x01230000 < h.version then
    .error (.database "Unsupported wallet version")
  else if h.magicBytes = 0xF9BEB4D9 ∨ h.magicBytes = 0xFABFB5DA ∨
      h.magicBytes = 0x0709110B then .ok ()
  else .error (.database "Unknown network magic")

/-- Legacy ROMIX KDF parameters (`LegacyKdfParams`, legacy_import.rs:41-46). -/
structure LegacyKdfParams where
  memoryReqtBytes : Nat
  numIterations : Nat
  salt : List Nat
  iv : List Nat
deriving DecidableEq, Repr

/-- `parse_kdf_params` (legacy_import.rs:199-227): seek to offset 352, then
read memory (4), iterations (4), salt (32), IV (16). -/
def parseKdfParams (file : List Nat) : Except StorageErr LegacyKdfParams :=
  match readExact 4 (file.drop 352) with
  | .error e => .error e
  | .ok (memB, r1) =>
  match readExact 4 r1 with
  | .error e => .error e
  | .ok (iterB, r2) =>
  match readExact 32 r2 with
  | .error e => .error e
  | .ok (salt, r3) =>
  match readExact 16 r3 with
  | .error e => .error e
  | .ok (iv, _) =>
      .ok { memoryReqtBytes := leVal memB, numIterations := leVal iterB,
            salt := salt, iv := iv }

/-- `parse_root_key` (legacy_import.rs:230-259): seek to offset 864, read
the 237-byte root-key blob; a supplied passphrase hits the unimplemented
legacy-decryption branch and fails. -/
def parseRootKey (file : List Nat) (kdf : LegacyKdfParams)
    (pass : Option (List Nat)) : Except StorageErr (List Nat) :=
  match readExact 237 (file.drop 864) with
  | .error e => .error e
  | .ok (keyData, _) =>
      match pass with
      | some _ =>
          .error (.database "Legacy encrypted wallet import not yet fully implemented")
      | none => .ok keyData

/-- A type-1 address entry (`LegacyAddress`, legacy_import.rs:271-277,
as populated by `parse_address_entry`: hash160 plus the address-type
byte; the key-material options are always `None` in the source). -/
structure LegacyAddressEntry where
  hash160 : List Nat
  addressType : Nat
deriving DecidableEq, Repr

/-- Parsed wallet entries (`WalletEntries`, legacy_import.rs:263-267). -/
structure WalletEntries where
  addresses : List LegacyAddressEntry
  txComments : List (List Nat × List Nat)
  addrComments : List (List Nat × List Nat)
deriving DecidableEq, Repr

/-- `parse_comment_entry` (legacy_import.rs:354-367): a 4-byte length then
that many comment bytes (kept raw; the source's UTF-8 check is lossless on
the byte level modelled here). -/
def parseCommentEntry (bs : List Nat) : Except StorageErr (List Nat × List Nat) :=
  match readExact 4 bs with
  | .error e => .error e
  | .ok (lenB, r1) =>
      match readExact (leVal lenB) r1 with
      | .error e => .error e
      | .ok (comment, r2) => .ok (comment, r2)

theorem parseCommentEntry_le (bs c rest : List Nat)
    (h : parseCommentEntry bs = .ok (c, rest)) : rest.length ≤ bs.length := by
  unfold parseCommentEntry readExact at h
  by_cases h4 : 4 ≤ bs.length
  · rw [if_pos h4] at h
    dsimp only at h
    by_cases hl : leVal (bs.take 4) ≤ (bs.drop 4).length
    · rw [if_pos hl] at h
      dsimp only at h
      cases h
      simp
    · rw [if_neg hl] at h
      exact Except.noConfusion h
  · rw [if_neg h4] at h
    exact Except.noConfusion h

/-- The entry loop of `parse_wallet_entries` (legacy_import.rs:280-331) on
the bytes from offset 2048: EOF (including a short read) at the entry-type
position ends the loop; EOF inside an entry is an I/O error; unknown entry
types abort with `InvalidFormat`. -/
def parseEntriesLoop (bs : List Nat) (acc : WalletEntries) :
    Except StorageErr WalletEntries :=
  if h4 : bs.length < 4 then .ok acc
  else
    if h20 : (bs.drop 4).length < 20 then .error .io
    else
      if leVal (bs.take 4) = 1 then
        if ((bs.drop 4).drop 20).length < 1 then .error .io
        else parseEntriesLoop (((bs.drop 4).drop 20).drop 1)
          { acc with addresses := acc.addresses ++
              [⟨(bs.drop 4).take 20, ((bs.drop 4).drop 20).headD 0⟩] }
      else if leVal (bs.take 4) = 2 then
        match hc : parseCommentEntry ((bs.drop 4).drop 20) with
        | .error e => .error e
        | .ok (c, rest) =>
            parseEntriesLoop rest
              { acc with addrComments := acc.addrComments ++
                  [((bs.drop 4).take 20, c)] }
      else if leVal (bs.take 4) = 3 then
        match hc : parseCommentEntry ((bs.drop 4).drop 20) with
        | .error e => .error e
        | .ok (c, rest) =>
            parseEntriesLoop rest
              { acc with txComments := acc.txComments ++
                  [((bs.drop 4).take 20, c)] }
      else .error (.database "Unknown entry type")
termination_by bs.length
decreasing_by
  · simp [List.length_drop]
    omega
  · have hle := parseCommentEntry_le _ c rest hc
    simp [List.length_drop] at hle ⊢
    omega
  · have hle := parseCommentEntry_le _ c rest hc
    simp [List.length_drop] at hle ⊢
    omega

/-- `parse_wallet_entries` (legacy_import.rs:280-331): seek to offset 2048
and run the entry loop with empty accumulators. -/
def parseWalletEntries (file : List Nat) : Except StorageErr WalletEntries :=
  parseEntriesLoop (file.drop 2048) ⟨[], [], []⟩

/-- `import_armory_wallet` (legacy_import.rs:69-109) up to the parsing
pipeline: header, validation, KDF parameters, root key, entries.  The
subsequent `convert_to_modern_format`/`save_wallet_data` steps (fresh
random key generation, storage I/O) are outside the byte-level model; no
claim under test depends on them, and every failure modelled here occurs
before they run. -/
def importArmoryWallet (file : List Nat) (pass : Option (List Nat)) :
    Except StorageErr (LegacyHeader × List Nat × WalletEntries) :=
  match parseWalletHeader file with
  | .error e => .error e
  | .ok (header, _) =>
  match validateWalletFile header with
  | .error e => .error e
  | .ok _ =>
  match parseKdfParams file with
  | .error e => .error e
  | .ok kdf =>
  match parseRootKey file kdf pass with
  | .error e => .error e
  | .ok rootKey =>
  match parseWalletEntries file with
  | .error e => .error e
  | .ok entries => .ok (header, rootKey, entries)

/-! ### PSBT v2 wire format (modelled from the spec)

The repository contains no PSBT serializer or parser (psbt.rs is the pure
data structure only), so the canonical wire format of §6 — BIP-174 framing
with the BIP-370 v2 fields — is modelled from the spec below and the
round-trip claim is settled against this model. -/

/-- Modelled from the spec: a PSBT v2 input restricted to the fields the
spec's wire-format section names — mandatory `PSBT_IN_PREVIOUS_TXID` and
`PSBT_IN_OUTPUT_INDEX`, plus the optional sequence and witness UTXO; the
remaining optional per-input fields of BIP-174 are not modelled. -/
structure SerInput where
  previousTxid : List Nat
  previousOutputIndex : Nat
  sequence : Option Nat
  witnessUtxo : Option TxOutM
deriving DecidableEq, Repr

/-- Modelled from the spec: a PSBT v2 output with its two mandatory fields
`PSBT_OUT_AMOUNT` and `PSBT_OUT_SCRIPT`. -/
structure SerOutput where
  amount : Nat
  script : List Nat
deriving DecidableEq, Repr

/-- Modelled from the spec: a PSBT v2 value with the mandatory globals
(`PSBT_GLOBAL_VERSION` = 2 implicit, input and output counts) and the
optional fallback locktime. -/
structure SerPsbt where
  inputs : List SerInput
  outputs : List SerOutput
  fallbackLocktime : Option Nat
  inputCount : Nat
  outputCount : Nat
deriving DecidableEq, Repr

/-- `w` little-endian bytes of `n` (low `8*w` bits). -/
def leBytes : Nat → Nat → List Nat
  | 0, _ => []
  | w + 1, n => n % 256 :: leBytes w (n / 256)

/-- Bitcoin CompactSize encoding of `n` (shortest canonical form). -/
def compactSize (n : Nat) : List Nat :=
  if n < 0xfd then [n]
  else if n < 2 ^ 16 then 0xfd :: leBytes 2 n
  else if n < 2 ^ 32 then 0xfe :: leBytes 4 n
  else 0xff :: leBytes 8 n

/-- Consume exactly `n` bytes. -/
def readN : Nat → List Nat → Option (List Nat × List Nat)
  | 0, bs => some ([], bs)
  | _ + 1, [] => none
  | n + 1, b :: bs =>
      match readN n bs with
      | none => none
      | some (xs, rest) => some (b :: xs, rest)

/-- Consume an expected literal byte pattern. -/
def expectBytes : List Nat → List Nat → Option (List Nat)
  | [], bs => some bs
  | _ :: _, [] => none
  | p :: ps, b :: bs => if b = p then expectBytes ps bs else none

/-- CompactSize decoding: one byte below 0xfd, or a marker byte followed by
a fixed-width little-endian payload. -/
def parseCompactSize : List Nat → Option (Nat × List Nat)
  | [] => none
  | b :: rest =>
      if b < 0xfd then some (b, rest)
      else if b = 0xfd then
        match readN 2 rest with
        | none => none
        | some (xs, r) => some (leVal xs, r)
      else if b = 0xfe then
        match readN 4 rest with
        | none => none
        | some (xs, r) => some (leVal xs, r)
      else
        match readN 8 rest with
        | none => none
        | some (xs, r) => some (leVal xs, r)

/-- A key-value entry whose value is itself a CompactSize integer (the
BIP-370 count globals): value-length prefix then the value bytes. -/
def serCSValue (n : Nat) : List Nat :=
  compactSize (compactSize n).length ++ compactSize n

/-- Parse a CompactSize-valued entry body: length prefix, that many bytes,
which must themselves be exactly one CompactSize integer. -/
def parseCSValue (bs : List Nat) : Option (Nat × List Nat) :=
  match parseCompactSize bs with
  | none => none
  | some (len, r1) =>
      match readN len r1 with
      | none => none
      | some (vb, r2) =>
          match parseCompactSize vb with
          | some (n, []) => some (n, r2)
          | _ => none

/-- Serialized global map of a PSBT v2 (canonical order):
`PSBT_GLOBAL_VERSION` (0xFB) = 2, `PSBT_GLOBAL_INPUT_COUNT` (0x04),
`PSBT_GLOBAL_OUTPUT_COUNT` (0x05), optional
`PSBT_GLOBAL_FALLBACK_LOCKTIME` (0x03), then the 0x00 separator. -/
def serGlobal (P : SerPsbt) : List Nat :=
  [1, 0xfb, 4] ++ leBytes 4 2 ++
  ([1, 0x04] ++ serCSValue P.inputCount) ++
  ([1, 0x05] ++ serCSValue P.outputCount) ++
  (match P.fallbackLocktime with
   | some v => [1, 0x03, 4] ++ leBytes 4 v
   | none => []) ++ [0]

/-- Parse the canonical global map: version, counts, optional fallback
locktime, separator. -/
def parseGlobal (bs : List Nat) : Option (Nat × Nat × Option Nat × List Nat) :=
  match expectBytes [1, 0xfb, 4] bs with
  | none => none
  | some rA =>
  match readN 4 rA with
  | none => none
  | some (verB, r0) =>
  if leVal verB ≠ 2 then none else
  match expectBytes [1, 0x04] r0 with
  | none => none
  | some r1 =>
  match parseCSValue r1 with
  | none => none
  | some (nin, r2) =>
  match expectBytes [1, 0x05] r2 with
  | none => none
  | some r3 =>
  match parseCSValue r3 with
  | none => none
  | some (nout, r4) =>
      if r4.take 2 = [1, 0x03] then
        match expectBytes [1, 0x03, 4] r4 with
        | none => none
        | some r5 =>
            match readN 4 r5 with
            | none => none
            | some (ltB, r6) =>
                match expectBytes [0] r6 with
                | none => none
                | some r7 => some (nin, nout, some (leVal ltB), r7)
      else
        match expectBytes [0] r4 with
        | none => none
        | some r5 => some (nin, nout, none, r5)

/-- Serialized witness-UTXO value (`bitcoin::TxOut` consensus encoding):
8-byte little-endian amount, CompactSize script length, script bytes —
preceded by its value-length prefix. -/
def serWitnessUtxo (u : TxOutM) : List Nat :=
  compactSize (8 + (compactSize u.scriptPubkey.length).length
      + u.scriptPubkey.length) ++
  leBytes 8 u.value ++ compactSize u.scriptPubkey.length ++ u.scriptPubkey

/-- Parse a witness-UTXO entry body (value length, amount, script). -/
def parseWitnessUtxo (bs : List Nat) : Option (TxOutM × List Nat) :=
  match parseCompactSize bs with
  | none => none
  | some (len, r1) =>
  match readN len r1 with
  | none => none
  | some (vb, r2) =>
  match readN 8 vb with
  | none => none
  | some (amountB, v1) =>
  match parseCompactSize v1 with
  | none => none
  | some (slen, v2) =>
  match readN slen v2 with
  | none => none
  | some (script, v3) =>
      if v3 = [] then some ({ value := leVal amountB, scriptPubkey := script }, r2)
      else none

/-- Serialized per-input map (canonical order): optional
`PSBT_IN_WITNESS_UTXO` (0x01), `PSBT_IN_PREVIOUS_TXID` (0x0e),
`PSBT_IN_OUTPUT_INDEX` (0x0f), optional `PSBT_IN_SEQUENCE` (0x10),
separator. -/
def serInput (i : SerInput) : List Nat :=
  (match i.witnessUtxo with
   | some u => [1, 0x01] ++ serWitnessUtxo u
   | none => []) ++
  ([1, 0x0e, 32] ++ i.previousTxid) ++
  ([1, 0x0f, 4] ++ leBytes 4 i.previousOutputIndex) ++
  (match i.sequence with
   | some s => [1, 0x10, 4] ++ leBytes 4 s
   | none => []) ++ [0]

/-- Parse one canonical per-input map. -/
def parseInput (bs : List Nat) : Option (SerInput × List Nat) :=
  match (if bs.take 2 = [1, 0x01] then
           match parseWitnessUtxo (bs.drop 2) with
           | none => none
           | some (u, r) => some (some u, r)
         else some (none, bs) : Option (Option TxOutM × List Nat)) with
  | none => none
  | some (wu, r1) =>
  match expectBytes [1, 0x0e, 32] r1 with
  | none => none
  | some r2 =>
  match readN 32 r2 with
  | none => none
  | some (txid, r3) =>
  match expectBytes [1, 0x0f, 4] r3 with
  | none => none
  | some r4 =>
  match readN 4 r4 with
  | none => none
  | some (idxB, r5) =>
  match (if r5.take 3 = [1, 0x10, 4] then
           match readN 4 (r5.drop 3) with
           | none => none
           | some (seqB, r6) => some (some (leVal seqB), r6)
         else some (none, r5) : Option (Option Nat × List Nat)) with
  | none => none
  | some (seq, r6) =>
  match expectBytes [0] r6 with
  | none => none
  | some r7 =>
      some ({ previousTxid := txid, previousOutputIndex := leVal idxB,
              sequence := seq, witnessUtxo := wu }, r7)

/-- Serialized per-output map (canonical order): `PSBT_OUT_AMOUNT` (0x03),
`PSBT_OUT_SCRIPT` (0x04), separator. -/
def serOutput (o : SerOutput) : List Nat :=
  ([1, 0x03, 8] ++ leBytes 8 o.amount) ++
  ([1, 0x04] ++ compactSize o.script.length ++ o.script) ++ [0]

/-- Parse one canonical per-output map. -/
def parseOutput (bs : List Nat) : Option (SerOutput × List Nat) :=
  match expectBytes [1, 0x03, 8] bs with
  | none => none
  | some r1 =>
  match readN 8 r1 with
  | none => none
  | some (amountB, r2) =>
  match expectBytes [1, 0x04] r2 with
  | none => none
  | some r3 =>
  match parseCompactSize r3 with
  | none => none
  | some (slen, r4) =>
  match readN slen r4 with
  | none => none
  | some (script, r5) =>
  match expectBytes [0] r5 with
  | none => none
  | some r6 => some ({ amount := leVal amountB, script := script }, r6)

/-- Concatenated serializations of a list. -/
def serList {α : Type} (f : α → List Nat) : List α → List Nat
  | [] => []
  | x :: xs => f x ++ serList f xs

/-- Parse `n` consecutive input maps. -/
def parseInputs : Nat → List Nat → Option (List SerInput × List Nat)
  | 0, bs => some ([], bs)
  | n + 1, bs =>
      match parseInput bs with
      | none => none
      | some (i, rest) =>
          match parseInputs n rest with
          | none => none
          | some (is, rest') => some (i :: is, rest')

/-- Parse `n` consecutive output maps. -/
def parseOutputs : Nat → List Nat → Option (List SerOutput × List Nat)
  | 0, bs => some ([], bs)
  | n + 1, bs =>
      match parseOutput bs with
      | none => none
      | some (o, rest) =>
          match parseOutputs n rest with
          | none => none
          | some (os, rest') => some (o :: os, rest')

/-- The PSBT magic `0x70 0x73 0x62 0x74 0xff`. -/
def psbtMagic : List Nat := [0x70, 0x73, 0x62, 0x74, 0xff]

/-- Modelled from the spec: canonical serialization of a PSBT v2 — magic,
global map, one map per input, one map per output. -/
def serializePsbt (P : SerPsbt) : List Nat :=
  psbtMagic ++ serGlobal P ++ serList serInput P.inputs ++
    serList serOutput P.outputs

/-- Modelled from the spec: parse a canonical PSBT v2 serialization,
requiring full consumption of the input. -/
def parsePsbt (bs : List Nat) : Option SerPsbt :=
  match expectBytes psbtMagic bs with
  | none => none
  | some r0 =>
  match parseGlobal r0 with
  | none => none
  | some (nin, nout, flt, r1) =>
  match parseInputs nin r1 with
  | none => none
  | some (ins, r2) =>
  match parseOutputs nout r2 with
  | none => none
  | some (outs, r3) =>
      if r3 = [] then
        some { inputs := ins, outputs := outs, fallbackLocktime := flt,
               inputCount := nin, outputCount := nout }
      else none

/-- Sum of the modelled input values (witness UTXO values, 0 when absent). -/
def sumInValues (l : List SerInput) : Nat :=
  (l.map fun i => match i.witnessUtxo with | some u => u.value | none => 0).sum

/-- Sum of the output amounts. -/
def sumOutValues (l : List SerOutput) : Nat :=
  (l.map SerOutput.amount).sum

/-- Well-formedness of one modelled input: 32-byte txid, u32 index and
sequence, and a witness UTXO present (the spec requires at least one of
witness/non-witness UTXO per input; only the witness UTXO is modelled)
with u64 amount and u32-bounded script length. -/
def wfInput (i : SerInput) : Bool :=
  decide (i.previousTxid.length = 32) && decide (i.previousOutputIndex < 2 ^ 32) &&
  (match i.sequence with | some s => decide (s < 2 ^ 32) | none => true) &&
  (match i.witnessUtxo with
   | some u => decide (u.value < 2 ^ 64) && decide (u.scriptPubkey.length < 2 ^ 32)
   | none => false)

/-- Well-formedness of one modelled output: non-zero u64 amount and a
non-empty script of u32-bounded length. -/
def wfOutput (o : SerOutput) : Bool :=
  decide (0 < o.amount) && decide (o.amount < 2 ^ 64) &&
  decide (o.script ≠ []) && decide (o.script.length < 2 ^ 32)

/-- Well-formedness of a modelled PSBT v2 per the spec: counts equal the
vector lengths, every input and output is well-formed, the fallback
locktime is a u32, and input values cover output values. -/
def wfSerPsbt (P : SerPsbt) : Bool :=
  decide (P.inputCount = P.inputs.length) &&
  decide (P.outputCount = P.outputs.length) &&
  decide (P.inputs.length < 2 ^ 64) && decide (P.outputs.length < 2 ^ 64) &&
  P.inputs.all wfInput && P.outputs.all wfOutput &&
  (match P.fallbackLocktime with | some v => decide (v < 2 ^ 32) | none => true) &&
  decide (sumOutValues P.outputs ≤ sumInValues P.inputs)

/-- A concrete well-formed PSBT for evaluating the codec on closed inputs:
one input spending a 100 000-sat P2WPKH UTXO with an RBF sequence, one
90 000-sat output, fallback locktime 0. -/
def serPsbtEx : SerPsbt :=
  { inputs := [{ previousTxid := List.replicate 32 1, previousOutputIndex := 0,
                 sequence := some 0xfffffffd,
                 witnessUtxo := some { value := 100000, scriptPubkey := [0x00, 0x14] } }],
    outputs := [{ amount := 90000, script := [0x51, 0x20] }],
    fallbackLocktime := some 0, inputCount := 1, outputCount := 1 }

-- ===================== THEOREMS =====================

/-- `generate_address` never touches the `next_indices` counters. -/
theorem generateAddress_nextIndices (ctx : CryptoCtx) (w : Wallet)
    (p : List ChildNumber) (t : AddressType) :
    (w.generateAddress ctx p t).2.nextIndices = w.nextIndices := by
  unfold Wallet.generateAddress
  split <;> simp

/-- C1: evidence for the code bug.  `Wallet::generate_address` builds every
Taproot script as `0x51 0x20` followed by the raw x-only bytes of the
derived public key: `dangerous_assume_tweaked` skips the BIP-341
`TaggedHash("TapTweak", x)` tweak entirely, and concretely the output key
committed by a fresh wallet's first Taproot address equals the untweaked
derived key bytes. -/
theorem c1_taproot_output_key_untweaked :
    (∀ (ctx : CryptoCtx) (k : List Nat),
        scriptPubkey ctx .taproot k = 0x51 :: 0x20 :: xonlyBytes k) ∧
    lookupPath wReg.addresses (AddressType.taproot.derivationPath 0 0 0)
      = some (0x51 :: 0x20 :: List.replicate 32 2) := by
  constructor
  · intro ctx k; rfl
  · decide

/-- C2: counterexample.  In a fresh wallet, the first change issuance for
NativeSegwit derives at index 1 and the second change issuance derives at
the SAME index 1 (same path), not at index 2: the counter is shared with
the receive chain and is not incremented by `get_change_address`. -/
theorem c2_change_counter_counterexample :
    wReg.nextIndex .nativeSegwit = 1 ∧
    (wReg.getChangeAddress ctx0 .nativeSegwit).2.nextIndex .nativeSegwit = 1 ∧
    (wReg.getChangeAddress ctx0 .nativeSegwit).2.changeAddressPath .nativeSegwit
      = wReg.changeAddressPath .nativeSegwit ∧
    ¬ ((wReg.getChangeAddress ctx0 .nativeSegwit).2.nextIndex .nativeSegwit
        = wReg.nextIndex .nativeSegwit + 1) := by
  decide

/-- C2 as amended: the wallet keeps a single next-issuance counter per
family, shared by the receive and change chains; `get_change_address`
derives the change path at `i = next_indices[family]` and does not
increment any counter on issuance, so two successive change issuances for
the same family derive at the same index. -/
theorem c2_change_counter_amended (ctx : CryptoCtx) (w : Wallet) (t u : AddressType) :
    (w.getChangeAddress ctx t).2.nextIndices = w.nextIndices ∧
    w.changeAddressPath t = t.derivationPath 0 1 (w.nextIndex t) ∧
    (w.getChangeAddress ctx t).2.nextIndex u = w.nextIndex u ∧
    (w.getChangeAddress ctx t).2.changeAddressPath t = w.changeAddressPath t := by
  have h : (w.getChangeAddress ctx t).2.nextIndices = w.nextIndices :=
    generateAddress_nextIndices ctx w (t.derivationPath 0 1 (w.nextIndex t)) t
  refine ⟨h, rfl, ?_, ?_⟩
  · unfold Wallet.nextIndex; rw [h]
  · unfold Wallet.changeAddressPath Wallet.nextIndex; rw [h]

/-- C3: counterexample.  A wallet created on Testnet issues addresses whose
derivation paths carry hardened coin-type 0, not the 1 the claim requires
for Testnet: `AddressType::derivation_path` hardcodes
`from_hardened_idx(0)` at the coin level. -/
theorem c3_coin_type_counterexample :
    wTest.network = .testnet ∧
    (lookupPath wTest.addresses (AddressType.nativeSegwit.derivationPath 0 0 0)).isSome
      = true ∧
    (AddressType.nativeSegwit.derivationPath 0 0 0)[1]? = some ⟨true, 0⟩ ∧
    ¬ ((AddressType.nativeSegwit.derivationPath 0 0 0)[1]? = some ⟨true, 1⟩) := by
  decide

/-- C3 as amended: the hardened coin-type level of every derivation path the
wallet produces is 0′, for every address family and every wallet state,
regardless of the wallet's network. -/
theorem c3_coin_type_amended (t : AddressType) (account chg index : Nat) (w : Wallet) :
    (t.derivationPath account chg index)[1]? = some ⟨true, 0⟩ ∧
    (w.changeAddressPath t)[1]? = some ⟨true, 0⟩ := by
  constructor <;> cases t <;> rfl

/-- C10: `Wallet::create_new` issues one receive address at index 0 for each
of the four families (via `generate_initial_addresses`), so every fresh
wallet has `next_indices[family] = 1` for every family, and the first
caller-requested receive address of any family is derived at index 1. -/
theorem c10_initial_addresses (ctx : CryptoCtx) (n : Network) (t : AddressType) :
    (Wallet.createNew ctx n).nextIndex t = 1 ∧
    (lookupPath (Wallet.createNew ctx n).addresses (t.derivationPath 0 0 0)).isSome
      = true ∧
    (lookupPath ((Wallet.createNew ctx n).getNewAddress ctx t).2.addresses
        (t.derivationPath 0 0 1)).isSome = true := by
  cases t <;>
    simp [Wallet.createNew, Wallet.getNewAddress, Wallet.generateAddress,
      Wallet.nextIndex, lookupIdx, insertIdx, lookupPath,
      AddressType.derivationPath, AddressType.purpose]

theorem sumValues_cons (u : MUtxo) (l : List MUtxo) :
    sumValues (u :: l) = u.value + sumValues l := by
  simp [sumValues]

theorem sumValues_insertDescByValue (u : MUtxo) (l : List MUtxo) :
    sumValues (insertDescByValue u l) = u.value + sumValues l := by
  induction l with
  | nil => simp [insertDescByValue, sumValues]
  | cons v rest ih =>
      unfold insertDescByValue
      split
      · rw [sumValues_cons, ih, sumValues_cons]; omega
      · rw [sumValues_cons]

theorem sumValues_insertAscByValue (u : MUtxo) (l : List MUtxo) :
    sumValues (insertAscByValue u l) = u.value + sumValues l := by
  induction l with
  | nil => simp [insertAscByValue, sumValues]
  | cons v rest ih =>
      unfold insertAscByValue
      split
      · rw [sumValues_cons, ih, sumValues_cons]; omega
      · rw [sumValues_cons]

theorem sumValues_sortByValueDesc (l : List MUtxo) :
    sumValues (sortByValueDesc l) = sumValues l := by
  induction l with
  | nil => rfl
  | cons u rest ih =>
      show sumValues (insertDescByValue u (sortByValueDesc rest)) = _
      rw [sumValues_insertDescByValue, ih, sumValues_cons]

theorem sumValues_sortByValueAsc (l : List MUtxo) :
    sumValues (sortByValueAsc l) = sumValues l := by
  induction l with
  | nil => rfl
  | cons u rest ih =>
      show sumValues (insertAscByValue u (sortByValueAsc rest)) = _
      rw [sumValues_insertAscByValue, ih, sumValues_cons]

theorem sumValues_sortForStrategy (s : CoinSelectionStrategy) (l : List MUtxo) :
    sumValues (sortForStrategy s l) = sumValues l := by
  cases s <;>
    simp [sortForStrategy, sumValues_sortByValueDesc, sumValues_sortByValueAsc]

/-- When the UTXO list cannot reach `needed`, the selection loop consumes
every UTXO and returns the full accumulated total. -/
theorem selectLoop_exhausted (needed : Nat) (l : List MUtxo) :
    ∀ sel tot, tot + sumValues l < needed → tot + sumValues l < 2 ^ 64 →
      selectLoop needed l sel tot = .ok (sel ++ l, tot + sumValues l) := by
  induction l with
  | nil =>
      intro sel tot h1 h2
      simp [selectLoop, sumValues]
  | cons u rest ih =>
      intro sel tot h1 h2
      rw [sumValues_cons] at h1 h2 ⊢
      unfold selectLoop
      rw [if_pos (by omega), if_neg (by omega)]
      rw [ih (sel ++ [u]) (tot + u.value) (by omega) (by omega)]
      simp [List.append_assoc, Nat.add_assoc]

/-- C6: when the spendable UTXOs cannot cover recipients plus the current
fee estimate, `perform_coin_selection` fails with
`InsufficientFunds { available, required }` where `available` is the sum of
the selected UTXO values (= all spendable values, since every UTXO was
selected before exhaustion) and `required = target + fee`.  In particular
(see the witness) zero spendable UTXOs give `available = 0` and
`required = fee + recipient total`. -/
theorem c6_insufficient_funds (strategy : CoinSelectionStrategy) (utxos : List MUtxo)
    (target fee : Nat)
    (hshort : sumValues utxos < target + fee)
    (hrep : sumValues utxos < 2 ^ 64) :
    performCoinSelection strategy utxos target fee
      = .error (.insufficientFunds (sumValues utxos) (target + fee)) := by
  have hs := sumValues_sortForStrategy strategy utxos
  simp only [performCoinSelection]
  rw [selectLoop_exhausted (target + fee) (sortForStrategy strategy utxos) [] 0
      (by omega) (by omega)]
  simp only [List.nil_append, Nat.zero_add]
  rw [if_pos (by omega), hs]

/-- C6 witness: zero spendable UTXOs with a 90 000-sat recipient and a
192-sat fee estimate fail with available 0 and required 90 192. -/
theorem c6_insufficient_funds_witness :
    sumValues ([] : List MUtxo) < 90000 + 192 ∧
    sumValues ([] : List MUtxo) < 2 ^ 64 ∧
    performCoinSelection .largestFirst [] 90000 192
      = .error (.insufficientFunds 0 (90000 + 192)) := by
  refine ⟨by decide, by decide, ?_⟩
  exact c6_insufficient_funds .largestFirst [] 90000 192 (by decide) (by decide)

/-- C4: counterexample.  One 1292-sat UTXO against a 1000-sat recipient at
1 sat/vB (fee estimate 192 sat) leaves change 100 sat, below the 294-sat
dust threshold the claim requires for a NativeSegwit change script — yet
`select_utxos` emits a change output of 100 sat: the builder has no dust
rule at all. -/
theorem c4_dust_counterexample :
    selectUtxosChange .largestFirst [⟨List.replicate 32 0, 0, 1292, [0, 20]⟩] 1000 1 1
      = .ok ([⟨List.replicate 32 0, 0, 1292, [0, 20]⟩], some 100) ∧ 100 < 294 :=
  ⟨rfl, by decide⟩

/-- C4 as amended: after coin selection the builder emits a change output
exactly when the computed change is positive — any positive change below
the dust threshold still becomes a change output; only change = 0 emits
none. -/
theorem c4_change_emission_amended (strategy : CoinSelectionStrategy)
    (utxos : List MUtxo) (recipientTotal numRecipients feeRate : Nat)
    (sel : List MUtxo) (change : Nat)
    (h : performCoinSelection strategy utxos recipientTotal
          (feeRate * estimateTransactionSize 0 numRecipients) = .ok (sel, change)) :
    (change = 0 →
      selectUtxosChange strategy utxos recipientTotal numRecipients feeRate
        = .ok (sel, none)) ∧
    (0 < change →
      selectUtxosChange strategy utxos recipientTotal numRecipients feeRate
        = .ok (sel, some change)) := by
  have hmain : selectUtxosChange strategy utxos recipientTotal numRecipients feeRate
      = .ok (sel, if 0 < change then some change else none) := by
    simp only [selectUtxosChange]
    rw [h]
  constructor
  · intro hc
    subst hc
    rw [hmain]
    simp
  · intro hc
    rw [hmain, if_pos hc]

/-- C4 amended witness: an exact-fit 1192-sat UTXO (1000-sat recipient plus
192-sat fee) selects with change 0 and emits no change output. -/
theorem c4_change_emission_amended_witness :
    performCoinSelection .largestFirst [⟨List.replicate 32 0, 0, 1192, [0, 20]⟩] 1000
        (1 * estimateTransactionSize 0 1)
      = .ok ([⟨List.replicate 32 0, 0, 1192, [0, 20]⟩], 0) ∧
    selectUtxosChange .largestFirst [⟨List.replicate 32 0, 0, 1192, [0, 20]⟩] 1000 1 1
      = .ok ([⟨List.replicate 32 0, 0, 1192, [0, 20]⟩], none) := by
  refine ⟨rfl, ?_⟩
  exact (c4_change_emission_amended .largestFirst
    [⟨List.replicate 32 0, 0, 1192, [0, 20]⟩] 1000 1 1
    [⟨List.replicate 32 0, 0, 1192, [0, 20]⟩] 0 rfl).1 rfl

/-- C5: counterexample.  `add_output` with a zero amount and an empty
script succeeds — the PSBT is extended, not left unchanged, and no error
is returned. -/
theorem c5_add_output_counterexample :
    PsbtV2.addOutput PsbtV2.new 0 []
      = .ok { version := 2, inputs := [], outputs := [{ amount := 0, script := [] }],
              fallbackLocktime := none, inputCount := 0, outputCount := 1 } :=
  rfl

/-- C5 as amended: `add_output` appends the output and sets `output_count`
to the new length of the outputs vector for every call — it accepts zero
amounts and empty scripts rather than rejecting them, and never errors. -/
theorem c5_add_output_amended (p : PsbtV2) (amount : Nat) (script : List Nat) :
    ∃ p', PsbtV2.addOutput p amount script = .ok p' ∧
      p'.outputs = p.outputs ++ [{ amount := amount, script := script }] ∧
      p'.outputCount = p'.outputs.length ∧
      p'.inputs = p.inputs ∧ p'.inputCount = p.inputCount ∧
      p'.version = p.version ∧ p'.fallbackLocktime = p.fallbackLocktime := by
  refine ⟨_, rfl, rfl, ?_, rfl, rfl, rfl, rfl⟩
  simp

theorem addInput_inputs (p : PsbtV2) (t : List Nat) (v : Nat) (s : Option Nat)
    (p1 : PsbtV2) (h : p.addInput t v s = .ok p1) :
    p1.inputs = p.inputs ++
      [{ previousTxid := t, previousOutputIndex := v, sequence := s,
         witnessUtxo := none, nonWitnessUtxo := none, partSigs := [],
         tapKeySig := none, finalScriptSig := none, finalScriptWitness := none }] := by
  cases h
  rfl

theorem setWitnessUtxo_mem_sequence (p : PsbtV2) (i : Nat) (u : TxOutM) (p' : PsbtV2)
    (h : p.setWitnessUtxo i u = .ok p') :
    ∀ inp ∈ p'.inputs, ∃ inp0 ∈ p.inputs, inp.sequence = inp0.sequence := by
  unfold PsbtV2.setWitnessUtxo at h
  split at h
  · rename_i hlt
    cases h
    intro inp hm
    rcases List.mem_or_eq_of_mem_set hm with hmem | rfl
    · exact ⟨inp, hmem, rfl⟩
    · exact ⟨p.inputs.get ⟨i, hlt⟩, List.get_mem _ _ _, rfl⟩
  · exact Except.noConfusion h

/-- Every input added by the input loop of `build_psbt` carries the
RBF-dependent sequence number, and the loop preserves that property. -/
theorem addSelectedInputs_sequences (enableRbf : Bool) (us : List MUtxo) :
    ∀ p p', addSelectedInputs enableRbf us p = .ok p' →
      (∀ inp ∈ p.inputs, inp.sequence = getSequenceNumber enableRbf) →
      ∀ inp ∈ p'.inputs, inp.sequence = getSequenceNumber enableRbf := by
  induction us with
  | nil =>
      intro p p' h hp
      cases h
      exact hp
  | cons u rest ih =>
      intro p p' h hp
      unfold addSelectedInputs at h
      split at h
      · exact Except.noConfusion h
      · rename_i p1 hadd
        split at h
        · exact Except.noConfusion h
        · rename_i p2 hset
          refine ih p2 p' h ?_
          intro inp hm
          obtain ⟨inp0, hmem0, hseq⟩ := setWitnessUtxo_mem_sequence p1 _ _ p2 hset inp hm
          rw [hseq]
          rw [addInput_inputs p u.txid u.vout (getSequenceNumber enableRbf) p1 hadd]
            at hmem0
          rcases List.mem_append.mp hmem0 with hL | hR
          · exact hp inp0 hL
          · rw [List.mem_singleton] at hR
            subst hR
            rfl

theorem addRecipientOutputs_inputs (outs : List (Nat × List Nat)) :
    ∀ p p', addRecipientOutputs outs p = .ok p' → p'.inputs = p.inputs := by
  induction outs with
  | nil =>
      intro p p' h
      cases h
      rfl
  | cons o rest ih =>
      intro p p' h
      obtain ⟨amount, script⟩ := o
      unfold addRecipientOutputs at h
      split at h
      · exact Except.noConfusion h
      · rename_i p1 hadd
        rw [ih p1 p' h]
        cases hadd
        rfl

/-- C7: every input of a PSBT assembled by `build_psbt` carries sequence
`0xFFFFFFFD` when RBF is enabled and `0xFFFFFFFF` otherwise, and
`finalize` maps each input's recorded sequence (default `0xFFFFFFFF` when
absent) into the finalized transaction. -/
theorem c7_rbf_sequences (selected : List MUtxo) (outputs : List (Nat × List Nat))
    (changeOutput : Option (Nat × List Nat)) (enableRbf : Bool) (locktime : Option Nat)
    (p q : PsbtV2) (tx : TransactionM)
    (hbuild : buildPsbt selected outputs changeOutput enableRbf locktime = .ok p)
    (hfin : q.finalize = .ok tx) :
    (∀ inp ∈ p.inputs,
        inp.sequence = some (if enableRbf then 0xfffffffd else 0xffffffff)) ∧
    tx.inputs.map TxInM.sequence
      = q.inputs.map (fun i => i.sequence.getD 0xffffffff) := by
  constructor
  · unfold buildPsbt at hbuild
    split at hbuild
    · exact Except.noConfusion hbuild
    · rename_i p1 h1
      split at hbuild
      · exact Except.noConfusion hbuild
      · rename_i p2 h2
        split at hbuild
        · exact Except.noConfusion hbuild
        · rename_i p3 h3
          have hinp : p.inputs = p3.inputs := by
            cases locktime with
            | some v => cases hbuild; rfl
            | none => cases hbuild; rfl
          have hinp3 : p3.inputs = p2.inputs := by
            cases changeOutput with
            | some amtScript =>
                obtain ⟨amount, script⟩ := amtScript
                cases h3
                rfl
            | none => cases h3; rfl
          have hinp2 : p2.inputs = p1.inputs := addRecipientOutputs_inputs outputs p1 p2 h2
          have hseq : ∀ inp ∈ p1.inputs, inp.sequence = getSequenceNumber enableRbf :=
            addSelectedInputs_sequences enableRbf selected PsbtV2.new p1 h1
              (by intro inp hm; exact absurd hm (List.not_mem_nil inp))
          intro inp hm
          rw [hinp, hinp3, hinp2] at hm
          rw [hseq inp hm]
          cases enableRbf <;> rfl
  · unfold PsbtV2.finalize at hfin
    split at hfin
    · exact Except.noConfusion hfin
    · split at hfin
      · exact Except.noConfusion hfin
      · cases hfin
        simp [List.map_map]

/-- C7 witness: a concrete RBF build has every sequence `0xFFFFFFFD`, and a
concrete finalize carries the recorded sequence 7 through. -/
theorem c7_rbf_sequences_witness :
    (∀ inp ∈ psbtEx.inputs, inp.sequence = some 0xfffffffd) ∧
    txEx.inputs.map TxInM.sequence
      = qEx.inputs.map (fun i => i.sequence.getD 0xffffffff) :=
  c7_rbf_sequences [utxoEx] [(90000, [0x51, 0x20])] none true none psbtEx qEx txEx
    rfl rfl

theorem readExact_ok (n : Nat) (xs : List Nat) (h : n ≤ xs.length) :
    readExact n xs = .ok (xs.take n, xs.drop n) := by
  unfold readExact
  rw [if_pos h]

/-- On any byte string at least as long as the 334-byte fixed header,
`parse_wallet_header` succeeds and reports the first 8 bytes as the file
id — validation has not run yet. -/
theorem parseWalletHeader_fileId (bs : List Nat) (h : 334 ≤ bs.length) :
    ∃ hdr rest, parseWalletHeader bs = .ok (hdr, rest) ∧ hdr.fileId = bs.take 8 := by
  unfold parseWalletHeader
  rw [readExact_ok 8 bs (by omega)]
  dsimp only
  rw [readExact_ok 4 (bs.drop 8) (by simp [List.length_drop]; omega)]
  dsimp only
  rw [readExact_ok 4 ((bs.drop 8).drop 4) (by simp [List.length_drop]; omega)]
  dsimp only
  rw [readExact_ok 8 (((bs.drop 8).drop 4).drop 4)
      (by simp [List.length_drop]; omega)]
  dsimp only
  rw [readExact_ok 6 _ (by simp [List.length_drop]; omega)]
  dsimp only
  rw [readExact_ok 8 _ (by simp [List.length_drop]; omega)]
  dsimp only
  rw [readExact_ok 32 _ (by simp [List.length_drop]; omega)]
  dsimp only
  rw [readExact_ok 256 _ (by simp [List.length_drop]; omega)]
  dsimp only
  rw [readExact_ok 8 _ (by simp [List.length_drop]; omega)]
  dsimp only
  exact ⟨_, _, rfl, rfl⟩

/-- C9: counterexample.  A 12-byte file whose first 8 bytes are not the
magic fails with an I/O (truncation) error, not the bad-magic error: the
parser reads the whole 334-byte header before `validate_wallet_file` ever
checks the signature, so the outcome is NOT the bad-magic failure
regardless of the file's length. -/
theorem c9_bad_magic_counterexample :
    importArmoryWallet (List.replicate 12 0) none = .error .io ∧
    StorageErr.io ≠ StorageErr.walletCorrupted :=
  ⟨rfl, by decide⟩

/-- C9 as amended: for files long enough to contain the fixed 334-byte
header, a wrong 8-byte signature makes the import fail with the bad-magic
(`WalletCorrupted`) error, whatever the remaining contents; shorter files
fail with an I/O truncation error instead, because the full header is read
before validation. -/
theorem c9_bad_magic_amended (file : List Nat) (pass : Option (List Nat))
    (hlen : 334 ≤ file.length) (hmagic : file.take 8 ≠ walletMagic) :
    importArmoryWallet file pass = .error .walletCorrupted := by
  obtain ⟨hdr, rest, hparse, hid⟩ := parseWalletHeader_fileId file hlen
  unfold importArmoryWallet
  rw [hparse]
  dsimp only
  unfold validateWalletFile
  rw [hid, if_pos hmagic]

set_option maxRecDepth 8192 in
/-- C9 amended witness: a 334-byte all-zero file (bad magic, full header
present) fails with `WalletCorrupted`. -/
theorem c9_bad_magic_amended_witness :
    334 ≤ (List.replicate 334 0).length ∧
    List.take 8 (List.replicate 334 0) ≠ walletMagic ∧
    importArmoryWallet (List.replicate 334 0) none = .error .walletCorrupted := by
  refine ⟨by decide, by decide, ?_⟩
  exact c9_bad_magic_amended (List.replicate 334 0) none (by decide) (by decide)

theorem length_leBytes (w : Nat) : ∀ n, (leBytes w n).length = w := by
  induction w with
  | zero => intro n; rfl
  | succ w ih => intro n; simp [leBytes, ih]

theorem leVal_leBytes (w : Nat) : ∀ n, n < 2 ^ (8 * w) → leVal (leBytes w n) = n := by
  induction w with
  | zero =>
      intro n h
      have h0 : n = 0 := by
        have h1 : (2 : Nat) ^ (8 * 0) = 1 := by norm_num
        omega
      subst h0
      rfl
  | succ w ih =>
      intro n h
      have hpow : (2 : Nat) ^ (8 * (w + 1)) = 2 ^ (8 * w) * 256 := by
        rw [Nat.mul_succ, Nat.pow_add]
      have hdiv : n / 256 < 2 ^ (8 * w) := by
        apply Nat.div_lt_of_lt_mul
        omega
      show n % 256 + 256 * leVal (leBytes w (n / 256)) = n
      rw [ih (n / 256) hdiv]
      exact Nat.mod_add_div n 256

theorem readN_append (xs : List Nat) : ∀ rest, readN xs.length (xs ++ rest) = some (xs, rest) := by
  induction xs with
  | nil => intro rest; rfl
  | cons b t ih =>
      intro rest
      show (match readN t.length (t ++ rest) with
            | none => none
            | some (ys, r) => some (b :: ys, r)) = some (b :: t, rest)
      rw [ih rest]

theorem readN_eq (n : Nat) (xs rest : List Nat) (h : xs.length = n) :
    readN n (xs ++ rest) = some (xs, rest) := by
  subst h
  exact readN_append xs rest

theorem readN_all (n : Nat) (xs : List Nat) (h : xs.length = n) :
    readN n xs = some (xs, []) := by
  have h2 := readN_eq n xs [] h
  rwa [List.append_nil] at h2

theorem expectBytes_append (pat : List Nat) :
    ∀ rest, expectBytes pat (pat ++ rest) = some rest := by
  induction pat with
  | nil => intro rest; rfl
  | cons p ps ih =>
      intro rest
      show (if p = p then expectBytes ps (ps ++ rest) else none) = some rest
      rw [if_pos rfl, ih rest]

theorem compactSize_small (n : Nat) (h : n < 0xfd) : compactSize n = [n] := by
  unfold compactSize
  rw [if_pos h]

theorem compactSize_length_le (n : Nat) : (compactSize n).length ≤ 9 := by
  unfold compactSize
  split
  · simp
  · split
    · simp [length_leBytes]
    · split <;> simp [length_leBytes]

theorem parseCompactSize_append (n : Nat) (h : n < 2 ^ 64) (rest : List Nat) :
    parseCompactSize (compactSize n ++ rest) = some (n, rest) := by
  unfold compactSize
  by_cases h1 : n < 0xfd
  · rw [if_pos h1]
    show parseCompactSize (n :: rest) = some (n, rest)
    simp only [parseCompactSize]
    rw [if_pos h1]
  · rw [if_neg h1]
    by_cases h2 : n < 2 ^ 16
    · rw [if_pos h2]
      show parseCompactSize (0xfd :: (leBytes 2 n ++ rest)) = some (n, rest)
      simp only [parseCompactSize]
      norm_num
      rw [readN_eq 2 (leBytes 2 n) rest (length_leBytes 2 n)]
      dsimp only
      rw [leVal_leBytes 2 n (by norm_num; omega)]
    · rw [if_neg h2]
      by_cases h3 : n < 2 ^ 32
      · rw [if_pos h3]
        show parseCompactSize (0xfe :: (leBytes 4 n ++ rest)) = some (n, rest)
        simp only [parseCompactSize]
        norm_num
        rw [readN_eq 4 (leBytes 4 n) rest (length_leBytes 4 n)]
        dsimp only
        rw [leVal_leBytes 4 n (by norm_num; omega)]
      · rw [if_neg h3]
        show parseCompactSize (0xff :: (leBytes 8 n ++ rest)) = some (n, rest)
        simp only [parseCompactSize]
        norm_num
        rw [readN_eq 8 (leBytes 8 n) rest (length_leBytes 8 n)]
        dsimp only
        rw [leVal_leBytes 8 n (by norm_num; omega)]

theorem parseCSValue_append (n : Nat) (h : n < 2 ^ 64) (rest : List Nat) :
    parseCSValue (serCSValue n ++ rest) = some (n, rest) := by
  have hlen : (compactSize n).length ≤ 9 := compactSize_length_le n
  unfold serCSValue parseCSValue
  rw [List.append_assoc, compactSize_small (compactSize n).length (by omega)]
  show (match parseCompactSize ((compactSize n).length :: (compactSize n ++ rest)) with
        | none => none
        | some (len, r1) =>
            match readN len r1 with
            | none => none
            | some (vb, r2) =>
                match parseCompactSize vb with
                | some (m, []) => some (m, r2)
                | _ => none) = some (n, rest)
  simp only [parseCompactSize]
  rw [if_pos (by omega)]
  dsimp only
  rw [readN_eq (compactSize n).length (compactSize n) rest rfl]
  dsimp only
  have hcs := parseCompactSize_append n h []
  rw [List.append_nil] at hcs
  simp only [parseCompactSize] at hcs
  rw [hcs]

theorem drop2_append2 (a b : Nat) (Y : List Nat) : (([a, b] : List Nat) ++ Y).drop 2 = Y :=
  rfl

theorem take2_eq_self (a b : Nat) (Y : List Nat) :
    (([a, b] : List Nat) ++ Y).take 2 = [a, b] :=
  rfl

theorem take3_eq_self (a b c : Nat) (Y : List Nat) :
    (([a, b, c] : List Nat) ++ Y).take 3 = [a, b, c] :=
  rfl

theorem take2_eq_of3 (a b c : Nat) (Y : List Nat) :
    (([a, b, c] : List Nat) ++ Y).take 2 = [a, b] :=
  rfl

theorem drop3_append3 (a b c : Nat) (Y : List Nat) :
    (([a, b, c] : List Nat) ++ Y).drop 3 = Y :=
  rfl

theorem take3_zero_ne (Y : List Nat) :
    ¬ ((([0] : List Nat) ++ Y).take 3 = [1, 0x10, 4]) := by
  cases Y with
  | nil => simp
  | cons a t => simp

theorem take2_zero_ne (Y : List Nat) :
    ¬ ((([0] : List Nat) ++ Y).take 2 = [1, 0x03]) := by
  cases Y with
  | nil => simp
  | cons a t => simp

theorem parseWitnessUtxo_append (u : TxOutM) (hv : u.value < 2 ^ 64)
    (hs : u.scriptPubkey.length < 2 ^ 32) (rest : List Nat) :
    parseWitnessUtxo (serWitnessUtxo u ++ rest) = some (u, rest) := by
  have hcsl : (compactSize u.scriptPubkey.length).length ≤ 9 := compactSize_length_le _
  unfold serWitnessUtxo parseWitnessUtxo
  have hgroup :
      compactSize (8 + (compactSize u.scriptPubkey.length).length
          + u.scriptPubkey.length) ++
        leBytes 8 u.value ++ compactSize u.scriptPubkey.length ++ u.scriptPubkey ++ rest
      = compactSize (8 + (compactSize u.scriptPubkey.length).length
          + u.scriptPubkey.length) ++
        ((leBytes 8 u.value ++ compactSize u.scriptPubkey.length ++ u.scriptPubkey)
          ++ rest) := by
    simp [List.append_assoc]
  rw [hgroup,
    parseCompactSize_append
      (8 + (compactSize u.scriptPubkey.length).length + u.scriptPubkey.length)
      (by omega)
      ((leBytes 8 u.value ++ compactSize u.scriptPubkey.length ++ u.scriptPubkey) ++ rest)]
  dsimp only
  rw [readN_eq (8 + (compactSize u.scriptPubkey.length).length + u.scriptPubkey.length)
      (leBytes 8 u.value ++ compactSize u.scriptPubkey.length ++ u.scriptPubkey) rest
      (by simp [length_leBytes]; omega)]
  dsimp only
  rw [List.append_assoc (leBytes 8 u.value) (compactSize u.scriptPubkey.length)
      u.scriptPubkey]
  rw [readN_eq 8 (leBytes 8 u.value)
      (compactSize u.scriptPubkey.length ++ u.scriptPubkey) (length_leBytes 8 u.value)]
  dsimp only
  rw [parseCompactSize_append u.scriptPubkey.length (by omega) u.scriptPubkey]
  dsimp only
  rw [readN_all u.scriptPubkey.length u.scriptPubkey rfl]
  dsimp only
  rw [if_pos rfl, leVal_leBytes 8 u.value (by norm_num; omega)]

theorem parseInput_append (i : SerInput) (h32 : i.previousTxid.length = 32)
    (hidx : i.previousOutputIndex < 2 ^ 32)
    (hseq : ∀ s, i.sequence = some s → s < 2 ^ 32)
    (u : TxOutM) (hwu : i.witnessUtxo = some u)
    (hv : u.value < 2 ^ 64) (hsc : u.scriptPubkey.length < 2 ^ 32)
    (rest : List Nat) :
    parseInput (serInput i ++ rest) = some (i, rest) := by
  obtain ⟨txid, idx, seq, wu⟩ := i
  dsimp only at h32 hidx hseq hwu
  subst hwu
  cases seq with
  | none =>
      unfold serInput parseInput
      dsimp only
      simp only [List.append_assoc, List.nil_append]
      rw [if_pos (take2_eq_self 1 1 _)]
      rw [drop2_append2]
      rw [parseWitnessUtxo_append u hv hsc]
      dsimp only
      rw [expectBytes_append]
      dsimp only
      rw [readN_eq 32 txid _ h32]
      dsimp only
      rw [expectBytes_append]
      dsimp only
      rw [readN_eq 4 (leBytes 4 idx) _ (length_leBytes 4 idx)]
      dsimp only
      rw [if_neg (take3_zero_ne _)]
      dsimp only
      rw [expectBytes_append]
      dsimp only
      rw [leVal_leBytes 4 idx (by norm_num; omega)]
  | some s =>
      have hs32 : s < 2 ^ 32 := hseq s rfl
      unfold serInput parseInput
      dsimp only
      simp only [List.append_assoc, List.nil_append]
      rw [if_pos (take2_eq_self 1 1 _)]
      rw [drop2_append2]
      rw [parseWitnessUtxo_append u hv hsc]
      dsimp only
      rw [expectBytes_append]
      dsimp only
      rw [readN_eq 32 txid _ h32]
      dsimp only
      rw [expectBytes_append]
      dsimp only
      rw [readN_eq 4 (leBytes 4 idx) _ (length_leBytes 4 idx)]
      dsimp only
      rw [if_pos (take3_eq_self 1 0x10 4 _)]
      rw [drop3_append3]
      rw [readN_eq 4 (leBytes 4 s) _ (length_leBytes 4 s)]
      dsimp only
      rw [expectBytes_append]
      dsimp only
      rw [leVal_leBytes 4 idx (by norm_num; omega),
        leVal_leBytes 4 s (by norm_num; omega)]

theorem parseOutput_append (o : SerOutput) (ha : o.amount < 2 ^ 64)
    (hs : o.script.length < 2 ^ 32) (rest : List Nat) :
    parseOutput (serOutput o ++ rest) = some (o, rest) := by
  obtain ⟨amount, script⟩ := o
  dsimp only at ha hs
  unfold serOutput parseOutput
  simp only [List.append_assoc, List.nil_append]
  rw [expectBytes_append]
  dsimp only
  rw [readN_eq 8 (leBytes 8 amount) _ (length_leBytes 8 amount)]
  dsimp only
  rw [expectBytes_append]
  dsimp only
  rw [parseCompactSize_append script.length (by omega)]
  dsimp only
  rw [readN_eq script.length script _ rfl]
  dsimp only
  rw [expectBytes_append]
  dsimp only
  rw [leVal_leBytes 8 amount (by norm_num; omega)]

theorem parseInputs_append (l : List SerInput) :
    ∀ rest, (∀ i ∈ l, wfInput i = true) →
      parseInputs l.length (serList serInput l ++ rest) = some (l, rest) := by
  induction l with
  | nil => intro rest _; rfl
  | cons i is ih =>
      intro rest hwf
      have hi := hwf i (List.mem_cons_self i is)
      simp only [wfInput, Bool.and_eq_true, decide_eq_true_eq] at hi
      obtain ⟨⟨⟨h32, hidx⟩, hseq⟩, hwu⟩ := hi
      have hseq' : ∀ s, i.sequence = some s → s < 2 ^ 32 := by
        intro s hs
        rw [hs] at hseq
        simpa using hseq
      have hwu' : ∃ u, i.witnessUtxo = some u ∧ u.value < 2 ^ 64 ∧
          u.scriptPubkey.length < 2 ^ 32 := by
        cases hu : i.witnessUtxo with
        | none => rw [hu] at hwu; simp at hwu
        | some u =>
            rw [hu] at hwu
            simp only [Bool.and_eq_true, decide_eq_true_eq] at hwu
            exact ⟨u, rfl, hwu.1, hwu.2⟩
      obtain ⟨u, hu, hv, hsc⟩ := hwu'
      simp only [serList, List.length_cons, List.append_assoc]
      simp only [parseInputs]
      rw [parseInput_append i h32 hidx hseq' u hu hv hsc]
      dsimp only
      rw [ih rest (fun j hj => hwf j (List.mem_cons_of_mem i hj))]

theorem parseInputs_count (n : Nat) (l : List SerInput) (hn : n = l.length)
    (rest : List Nat) (hwf : ∀ i ∈ l, wfInput i = true) :
    parseInputs n (serList serInput l ++ rest) = some (l, rest) := by
  subst hn
  exact parseInputs_append l rest hwf

theorem parseOutputs_append (l : List SerOutput) :
    ∀ rest, (∀ o ∈ l, wfOutput o = true) →
      parseOutputs l.length (serList serOutput l ++ rest) = some (l, rest) := by
  induction l with
  | nil => intro rest _; rfl
  | cons o os ih =>
      intro rest hwf
      have ho := hwf o (List.mem_cons_self o os)
      simp only [wfOutput, Bool.and_eq_true, decide_eq_true_eq] at ho
      obtain ⟨⟨⟨hpos, h64⟩, hne⟩, hlen⟩ := ho
      simp only [serList, List.length_cons, List.append_assoc]
      simp only [parseOutputs]
      rw [parseOutput_append o h64 hlen]
      dsimp only
      rw [ih rest (fun j hj => hwf j (List.mem_cons_of_mem o hj))]

theorem parseOutputs_count (n : Nat) (l : List SerOutput) (hn : n = l.length)
    (rest : List Nat) (hwf : ∀ o ∈ l, wfOutput o = true) :
    parseOutputs n (serList serOutput l ++ rest) = some (l, rest) := by
  subst hn
  exact parseOutputs_append l rest hwf

theorem parseGlobal_append (P : SerPsbt) (hin : P.inputCount < 2 ^ 64)
    (hout : P.outputCount < 2 ^ 64)
    (hflt : ∀ v, P.fallbackLocktime = some v → v < 2 ^ 32) (rest : List Nat) :
    parseGlobal (serGlobal P ++ rest)
      = some (P.inputCount, P.outputCount, P.fallbackLocktime, rest) := by
  unfold serGlobal parseGlobal
  cases hf : P.fallbackLocktime with
  | none =>
      dsimp only
      simp only [List.append_assoc, List.nil_append]
      rw [expectBytes_append]
      dsimp only
      rw [readN_eq 4 (leBytes 4 2) _ (length_leBytes 4 2)]
      dsimp only
      rw [if_neg (by decide)]
      rw [expectBytes_append]
      dsimp only
      rw [parseCSValue_append P.inputCount hin]
      dsimp only
      rw [expectBytes_append]
      dsimp only
      rw [parseCSValue_append P.outputCount hout]
      dsimp only
      rw [if_neg (take2_zero_ne _)]
      rw [expectBytes_append]
  | some v =>
      have hv := hflt v hf
      dsimp only
      simp only [List.append_assoc, List.nil_append]
      rw [expectBytes_append]
      dsimp only
      rw [readN_eq 4 (leBytes 4 2) _ (length_leBytes 4 2)]
      dsimp only
      rw [if_neg (by decide)]
      rw [expectBytes_append]
      dsimp only
      rw [parseCSValue_append P.inputCount hin]
      dsimp only
      rw [expectBytes_append]
      dsimp only
      rw [parseCSValue_append P.outputCount hout]
      dsimp only
      rw [if_pos (take2_eq_of3 1 3 4 _)]
      rw [expectBytes_append]
      dsimp only
      rw [readN_eq 4 (leBytes 4 v) _ (length_leBytes 4 v)]
      dsimp only
      rw [expectBytes_append]
      dsimp only
      rw [leVal_leBytes 4 v (by norm_num; omega)]

/-- C8: for every well-formed modelled PSBT v2 value, parsing the canonical
BIP-174/BIP-370 serialization returns the original value. -/
theorem c8_psbt_roundtrip (P : SerPsbt) (hwf : wfSerPsbt P = true) :
    parsePsbt (serializePsbt P) = some P := by
  simp only [wfSerPsbt, Bool.and_eq_true, decide_eq_true_eq] at hwf
  obtain ⟨⟨⟨⟨⟨⟨⟨hic, hoc⟩, hilen⟩, holen⟩, hiwf⟩, howf⟩, hflt⟩, hsum⟩ := hwf
  have hiwf' : ∀ i ∈ P.inputs, wfInput i = true := by
    rw [List.all_eq_true] at hiwf
    intro i hi
    exact hiwf i hi
  have howf' : ∀ o ∈ P.outputs, wfOutput o = true := by
    rw [List.all_eq_true] at howf
    intro o ho
    exact howf o ho
  have hflt' : ∀ v, P.fallbackLocktime = some v → v < 2 ^ 32 := by
    intro v hv
    rw [hv] at hflt
    simpa using hflt
  unfold serializePsbt parsePsbt
  simp only [List.append_assoc]
  rw [expectBytes_append]
  dsimp only
  rw [parseGlobal_append P (by omega) (by omega) hflt']
  dsimp only
  rw [parseInputs_count P.inputCount P.inputs hic (serList serOutput P.outputs) hiwf']
  dsimp only
  have hOut := parseOutputs_count P.outputCount P.outputs hoc [] howf'
  rw [List.append_nil] at hOut
  rw [hOut]
  dsimp only
  rw [if_pos rfl]

/-- C8 witness: the concrete one-input/one-output PSBT is well-formed and
round-trips through the canonical serialization. -/
theorem c8_psbt_roundtrip_witness :
    wfSerPsbt serPsbtEx = true ∧
    parsePsbt (serializePsbt serPsbtEx) = some serPsbtEx := by
  refine ⟨by decide, ?_⟩
  exact c8_psbt_roundtrip serPsbtEx (by decide)

end Armory
